import Mathlib

/-!
Shallow embedding of the URL-shortener service in `main.py`:
the MD5-based short-code generator (`generate_short_url`), the SQLite-backed
link registry accessed by `GenerateURL.post`, `GetFullURL.get` and
`RedirectURL.get`, and the Redis-backed admission counters used by
`check_rate_limit` and the `finally` release block of `GenerateURL.post`.

Modelling conventions:
* SQLite's `url_map` table is a `List LinkRecord` in insertion order; `fetchone`
  after `SELECT ... WHERE col = ?` is `List.find?` (first matching row), SQL
  `UPDATE ... WHERE full_url = ?` rewrites every matching row, `INSERT` appends.
  The unused `id` autoincrement column is not represented.
* Timestamps are seconds as `Nat`; the source stores `created_at` as a
  `'%Y-%m-%d %H:%M:%S'` string (second granularity) and parses it back, so the
  round trip is the identity on whole seconds.  `timedelta(minutes=10)` is 600.
* The Redis counter store is an association list `List (String × Int)`; a key
  that is absent models both "never written" and "TTL 60s elapsed" (Redis
  expiry deletes the key).  `INCR` on an absent key yields 1, `DECR` on an
  absent key yields -1, exactly as Redis behaves with `decode_responses`.
* Python machine behaviour that cannot occur on these paths (string/int
  conversion of Redis replies) is elided; exceptions raised by the database
  layer inside the guarded `try` block are modelled by an explicit `fault`
  flag on the handler, since `except Exception` catches them all uniformly.
-/

/-! ## CodeGenerator: `generate_short_url` (main.py line 53-54)

`hashlib.md5(full_url.encode()).hexdigest()[:6]`.  The MD5 transcription below
follows RFC 1321 on 32-bit words represented as `Nat` reduced mod `2^32`.
-/

/-- Reduce to a 32-bit word. -/
def w32 (x : Nat) : Nat := x % 4294967296

/-- Bitwise complement on 32-bit words. -/
def mnot32 (x : Nat) : Nat := x ^^^ 4294967295

/-- Left-rotation of a 32-bit word by `s` places. -/
def rotl32 (x s : Nat) : Nat := w32 ((x <<< s) ||| (x >>> (32 - s)))

/-- The 64 per-round shift amounts of MD5 (RFC 1321). -/
def md5S : List Nat :=
  [7, 12, 17, 22, 7, 12, 17, 22, 7, 12, 17, 22, 7, 12, 17, 22,
   5, 9, 14, 20, 5, 9, 14, 20, 5, 9, 14, 20, 5, 9, 14, 20,
   4, 11, 16, 23, 4, 11, 16, 23, 4, 11, 16, 23, 4, 11, 16, 23,
   6, 10, 15, 21, 6, 10, 15, 21, 6, 10, 15, 21, 6, 10, 15, 21]

/-- The 64 sine-derived constants of MD5 (RFC 1321). -/
def md5K : List Nat :=
  [0xd76aa478, 0xe8c7b756, 0x242070db, 0xc1bdceee,
   0xf57c0faf, 0x4787c62a, 0xa8304613, 0xfd469501,
   0x698098d8, 0x8b44f7af, 0xffff5bb1, 0x895cd7be,
   0x6b901122, 0xfd987193, 0xa679438e, 0x49b40821,
   0xf61e2562, 0xc040b340, 0x265e5a51, 0xe9b6c7aa,
   0xd62f105d, 0x02441453, 0xd8a1e681, 0xe7d3fbc8,
   0x21e1cde6, 0xc33707d6, 0xf4d50d87, 0x455a14ed,
   0xa9e3e905, 0xfcefa3f8, 0x676f02d9, 0x8d2a4c8a,
   0xfffa3942, 0x8771f681, 0x6d9d6122, 0xfde5380c,
   0xa4beea44, 0x4bdecfa9, 0xf6bb4b60, 0xbebfbc70,
   0x289b7ec6, 0xeaa127fa, 0xd4ef3085, 0x04881d05,
   0xd9d4d039, 0xe6db99e5, 0x1fa27cf8, 0xc4ac5665,
   0xf4292244, 0x432aff97, 0xab9423a7, 0xfc93a039,
   0x655b59c3, 0x8f0ccc92, 0xffeff47d, 0x85845dd1,
   0x6fa87e4f, 0xfe2ce6e0, 0xa3014314, 0x4e0811a1,
   0xf7537e82, 0xbd3af235, 0x2ad7d2bb, 0xeb86d391]

/-- MD5 initial chaining state `(A, B, C, D)`. -/
def md5Init : Nat × Nat × Nat × Nat := (0x67452301, 0xefcdab89, 0x98badcfe, 0x10325476)

/-- Little-endian 32-bit word number `g` of a 64-byte chunk. -/
def leWord (m : List Nat) (g : Nat) : Nat :=
  m.getD (4 * g) 0 + 256 * m.getD (4 * g + 1) 0 +
    65536 * m.getD (4 * g + 2) 0 + 16777216 * m.getD (4 * g + 3) 0

/-- One of the 64 MD5 rounds on chunk `m`. -/
def md5Step (m : List Nat) (st : Nat × Nat × Nat × Nat) (i : Nat) : Nat × Nat × Nat × Nat :=
  let (a, b, c, d) := st
  let fg : Nat × Nat :=
    if i < 16 then ((b &&& c) ||| (mnot32 b &&& d), i)
    else if i < 32 then ((d &&& b) ||| (mnot32 d &&& c), (5 * i + 1) % 16)
    else if i < 48 then (b ^^^ c ^^^ d, (3 * i + 5) % 16)
    else (c ^^^ (b ||| mnot32 d), (7 * i) % 16)
  let f := w32 (fg.1 + a + md5K.getD i 0 + leWord m fg.2)
  (d, w32 (b + rotl32 f (md5S.getD i 0)), b, c)

/-- Process one 64-byte chunk, adding the round result to the chaining state. -/
def md5Chunk (st : Nat × Nat × Nat × Nat) (m : List Nat) : Nat × Nat × Nat × Nat :=
  let r := (List.range 64).foldl (md5Step m) st
  (w32 (st.1 + r.1), w32 (st.2.1 + r.2.1), w32 (st.2.2.1 + r.2.2.1), w32 (st.2.2.2 + r.2.2.2))

/-- MD5 padding: `0x80`, zeros to 56 mod 64, then the 64-bit little-endian bit length. -/
def md5Pad (msg : List Nat) : List Nat :=
  let len := msg.length
  let zeros := (120 - (len + 1) % 64) % 64
  msg ++ [128] ++ List.replicate zeros 0 ++
    (List.range 8).map (fun j => ((8 * len) >>> (8 * j)) % 256)

/-- Split a byte list into 64-byte chunks; the fuel argument (any bound on the
number of chunks, here the length) keeps the recursion structural. -/
def toChunksAux : Nat → List Nat → List (List Nat)
  | 0, _ => []
  | _, [] => []
  | fuel + 1, b :: rest => ((b :: rest).take 64) :: toChunksAux fuel ((b :: rest).drop 64)

/-- Split a byte list into 64-byte chunks. -/
def toChunks (l : List Nat) : List (List Nat) := toChunksAux l.length l

/-- The four bytes of a 32-bit word, little endian. -/
def wordLE (w : Nat) : List Nat := [w % 256, (w >>> 8) % 256, (w >>> 16) % 256, (w >>> 24) % 256]

/-- The 16-byte MD5 digest of a byte string. -/
def md5Bytes (msg : List Nat) : List Nat :=
  let r := (toChunks (md5Pad msg)).foldl md5Chunk md5Init
  wordLE r.1 ++ wordLE r.2.1 ++ wordLE r.2.2.1 ++ wordLE r.2.2.2

/-- Lowercase hexadecimal digit for `n < 16`, as in Python's `hexdigest`. -/
def hexChar (n : Nat) : Char := if n < 10 then Char.ofNat (48 + n) else Char.ofNat (87 + n)

/-- Two lowercase hex characters of one byte. -/
def byteHexChars (b : Nat) : List Char := [hexChar ((b >>> 4) % 16), hexChar (b % 16)]

/-- The 32-character `hexdigest()` of the MD5 of a byte string, as characters. -/
def md5HexChars (msg : List Nat) : List Char := ((md5Bytes msg).map byteHexChars).flatten

/-- UTF-8 bytes of one character, as produced by Python's `str.encode()`. -/
def charUtf8 (c : Char) : List Nat :=
  let n := c.toNat
  if n < 128 then [n]
  else if n < 2048 then [192 + n / 64, 128 + n % 64]
  else if n < 65536 then [224 + n / 4096, 128 + (n / 64) % 64, 128 + n % 64]
  else [240 + n / 262144, 128 + (n / 4096) % 64, 128 + (n / 64) % 64, 128 + n % 64]

/-- UTF-8 encoding of a string, `full_url.encode()`. -/
def strBytes (s : String) : List Nat := (s.data.map charUtf8).flatten

/-- main.py 53-54: `hashlib.md5(full_url.encode()).hexdigest()[:6]`. -/
def generate_short_url (full_url : String) : String :=
  ⟨(md5HexChars (strBytes full_url)).take 6⟩

/-! ## LinkRegistry: the `url_map` table and its queries -/

/-- One row of `url_map` (main.py 35-45); the unused autoincrement `id` is omitted. -/
structure LinkRecord where
  full_url : String
  short_url : String
  created_at : Nat
  deriving DecidableEq, Repr

/-- `timedelta(minutes=10)` in seconds. -/
def LINK_TTL : Nat := 600

/-- main.py 57-59: `datetime.now() > created_at + timedelta(minutes=10)`. -/
def is_link_expired (created_at now : Nat) : Bool := created_at + LINK_TTL < now

/-- `SELECT ... WHERE full_url = ?` with `fetchone()`: first row matching the URL. -/
def findByUrl (db : List LinkRecord) (full_url : String) : Option LinkRecord :=
  db.find? (fun r => r.full_url = full_url)

/-- `SELECT ... WHERE short_url = ?` with `fetchone()`: first row matching the code. -/
def findByCode (db : List LinkRecord) (short_url : String) : Option LinkRecord :=
  db.find? (fun r => r.short_url = short_url)

/-- `UPDATE url_map SET short_url = ?, created_at = ? WHERE full_url = ?`:
rewrites every row whose `full_url` matches. -/
def updateByUrl (db : List LinkRecord) (full_url short_url : String) (created_at : Nat) :
    List LinkRecord :=
  db.map (fun r => if r.full_url = full_url then
    { r with short_url := short_url, created_at := created_at } else r)

/-- The registry part of `GenerateURL.post` (main.py 110-131): look up by URL;
a fresh row is returned as-is (`created = false`, no write); otherwise the code
is recomputed and the row updated (expired) or inserted (absent), with
`created = true`.  Returns `(short_url, created, new table)`. -/
def upsertDb (db : List LinkRecord) (full_url : String) (now : Nat) :
    String × Bool × List LinkRecord :=
  match findByUrl db full_url with
  | some row =>
    if is_link_expired row.created_at now = false then (row.short_url, false, db)
    else
      let short_url := generate_short_url full_url
      (short_url, true, updateByUrl db full_url short_url now)
  | none =>
    let short_url := generate_short_url full_url
    (short_url, true, db ++ [⟨full_url, short_url, now⟩])

/-- Outcome of `GetFullURL.get` (main.py 155-169): 404, 410, or 200 with the full URL. -/
inductive GetResult where
  | notFound
  | gone
  | okUrl (full_url : String)
  deriving DecidableEq, Repr

/-- main.py 155-169: resolve a short code to its full URL (no write). -/
def getFullUrl (db : List LinkRecord) (short_url : String) (now : Nat) : GetResult :=
  match findByCode db short_url with
  | none => .notFound
  | some row =>
    if is_link_expired row.created_at now then .gone else .okUrl row.full_url

/-- Outcome of `RedirectURL.get` (main.py 182-196): 404, 410, or 302 to the full URL. -/
inductive RedirectResult where
  | notFound
  | gone
  | redirectTo (location : String)
  deriving DecidableEq, Repr

/-- main.py 182-196: same lookup as `getFullUrl` but the success case is a 302. -/
def redirectUrl (db : List LinkRecord) (short_url : String) (now : Nat) : RedirectResult :=
  match findByCode db short_url with
  | none => .notFound
  | some row =>
    if is_link_expired row.created_at now then .gone else .redirectTo row.full_url

/-! ## AdmissionController: the Redis counters -/

/-- The Redis counter store: keys to integer values; an absent key also models
a key whose 60s TTL has elapsed. -/
abbrev Store := List (String × Int)

/-- main.py 15-17. -/
def MAX_CONCURRENT_REQUESTS : Int := 100

/-- main.py 15-17. -/
def MAX_CONCURRENT_REQUESTS_FOR_ONE_USER : Int := 100

/-- Counter-key TTL in seconds (main.py 16); TTL passage itself is modelled by
key absence, see `Store`. -/
def REQUEST_TTL : Nat := 60

/-- Redis `GET`. -/
def rget (st : Store) (k : String) : Option Int :=
  (st.find? (fun p => p.1 = k)).map (fun p => p.2)

/-- Redis `SET` (insert or overwrite in place). -/
def rset (st : Store) (k : String) (v : Int) : Store :=
  match st with
  | [] => [(k, v)]
  | (k', v') :: rest => if k' = k then (k, v) :: rest else (k', v') :: rset rest k v

/-- Redis `INCR`: an absent key becomes 1; returns the new value and store. -/
def rincr (st : Store) (k : String) : Int × Store :=
  match rget st k with
  | none => (1, rset st k 1)
  | some n => (n + 1, rset st k (n + 1))

/-- Redis `DECR`: an absent key becomes -1. -/
def rdecr (st : Store) (k : String) : Store :=
  match rget st k with
  | none => rset st k (-1)
  | some n => rset st k (n - 1)

/-- The Redis key `user_requests:<user_id>` (main.py 63). -/
def userKey (user_id : String) : String := "user_requests:" ++ user_id

/-- The Redis key `total_requests` (main.py 64). -/
def totalKey : String := "total_requests"

/-- main.py 62-80: increment both counters (the pipelined `expire` calls reset
the 60s TTLs, which key absence models), then compare the incremented values
against the thresholds.  Returns `(allowed, store)`. -/
def check_rate_limit (user_id : String) (st : Store) : Bool × Store :=
  let r1 := rincr st (userKey user_id)
  let r2 := rincr r1.2 totalKey
  if r2.1 > MAX_CONCURRENT_REQUESTS ∨ r1.1 > MAX_CONCURRENT_REQUESTS_FOR_ONE_USER then
    (false, r2.2)
  else
    (true, r2.2)

/-- The `finally` block of `GenerateURL.post` (main.py 137-146), run once
`counters_increased` is set: decrement the user key if present and positive,
then the total key if present and positive. -/
def releaseCounters (st : Store) (user_id : Option String) : Store :=
  let st1 :=
    match user_id with
    | none => st
    | some uid =>
      match rget st (userKey uid) with
      | none => st
      | some n => if n > 0 then rdecr st (userKey uid) else st
  match rget st1 totalKey with
  | none => st1
  | some n => if n > 0 then rdecr st1 totalKey else st1

/-! ## ResolutionService: the `/generate` handler -/

/-- Outcome of `GenerateURL.post`, tagged with its HTTP status. -/
inductive PostResult where
  /-- 400, `user_id is required` -/
  | badRequestUser
  /-- 400, `URL is required` -/
  | badRequestUrl
  /-- 429, too many concurrent requests -/
  | tooMany
  /-- 200, short link fetched from the table -/
  | fetched (short_url : String)
  /-- 201, short link newly written -/
  | createdNew (short_url : String)
  /-- 500, exception caught by the `except` block -/
  | serverError
  deriving DecidableEq, Repr

/-- main.py 91-146: the whole `/generate` handler.  `full_url`/`user_id` are
`none` when the JSON field is absent (`request.json.get`); `if not user_id`
also catches the empty string.  `fault` models an exception raised by the
database layer inside the guarded block (caught at line 133 as a 500); the
`finally` block releases the counters on every path after `counters_increased`
is set at line 105. -/
def post (full_url user_id : Option String) (st : Store) (db : List LinkRecord)
    (now : Nat) (fault : Bool) : PostResult × Store × List LinkRecord :=
  match user_id with
  | none => (.badRequestUser, st, db)
  | some uid =>
    if uid = "" then (.badRequestUser, st, db)
    else
      match full_url with
      | none => (.badRequestUrl, st, db)
      | some url =>
        if url = "" then (.badRequestUrl, st, db)
        else
          let res := check_rate_limit uid st
          -- counters_increased = True from here on: the finally block fires below
          if res.1 = false then (.tooMany, releaseCounters res.2 (some uid), db)
          else if fault then (.serverError, releaseCounters res.2 (some uid), db)
          else
            let r := upsertDb db url now
            ((if r.2.1 then .createdNew r.1 else .fetched r.1),
              releaseCounters res.2 (some uid), r.2.2)

/-! ## Admission scenarios: iterated admits and admit/release sequences -/

/-- Store after `n` successive un-released `check_rate_limit` calls for one user. -/
def acquireN : Nat → String → Store → Store
  | 0, _, st => st
  | n + 1, uid, st => acquireN n uid (check_rate_limit uid st).2

/-- Whether `n` successive un-released `check_rate_limit` calls all return allowed. -/
def allAcquiredN : Nat → String → Store → Bool
  | 0, _, _ => true
  | n + 1, uid, st =>
    let r := check_rate_limit uid st
    r.1 && allAcquiredN n uid r.2

/-- One admission-controller event for a fixed user: a `check_rate_limit`
increment or a `finally`-block release. -/
inductive COp where
  | acquire
  | release
  deriving DecidableEq, Repr

/-- Apply one event to the counter store. -/
def applyOp (op : COp) (uid : String) (st : Store) : Store :=
  match op with
  | .acquire => (check_rate_limit uid st).2
  | .release => releaseCounters st (some uid)

/-- Run a sequence of admission events for one user. -/
def runOps : List COp → String → Store → Store
  | [], _, st => st
  | op :: ops, uid, st => runOps ops uid (applyOp op uid st)

/-- Number of admits in a sequence. -/
def countAdm (ops : List COp) : Nat := ops.countP (fun o => o = COp.acquire)

/-- Number of releases in a sequence. -/
def countRel (ops : List COp) : Nat := ops.countP (fun o => o = COp.release)

/-- Value of a counter key, reading an absent key as zero. -/
def cval (st : Store) (k : String) : Int := (rget st k).getD 0

/-- Effect of one admit on a single counter key (Redis `INCR`). -/
def kIncr : Option Int → Option Int
  | none => some 1
  | some n => some (n + 1)

/-- Effect of one release on a single counter key: decrement only when present
and positive (main.py 140-146). -/
def kRelease : Option Int → Option Int
  | none => none
  | some n => if n > 0 then some (n - 1) else some n

/-- Per-key interpretation of an event sequence. -/
def runK : List COp → Option Int → Option Int
  | [], v => v
  | COp.acquire :: ops, v => runK ops (kIncr v)
  | COp.release :: ops, v => runK ops (kRelease v)

/-- A character is a lowercase hexadecimal digit. -/
def isHexChar (c : Char) : Bool :=
  (decide ('0' ≤ c) && decide (c ≤ '9')) || (decide ('a' ≤ c) && decide (c ≤ 'f'))

/-- Records produced by folding a sequence of upsert calls over a table. -/
def runUpserts : List (String × Nat) → List LinkRecord → List LinkRecord
  | [], db => db
  | (url, now) :: ops, db => runUpserts ops (upsertDb db url now).2.2

/-- No two rows of the table share a `full_url`. -/
def singleRecord (db : List LinkRecord) : Prop :=
  List.Pairwise (fun a b => a.full_url ≠ b.full_url) db

instance (db : List LinkRecord) : Decidable (singleRecord db) := by
  unfold singleRecord; infer_instance

/-- `prefixBalanced ops held` holds when, starting with `held` outstanding
admissions, no release in `ops` ever fires without a matching earlier admit:
the "each `try_admit` followed by exactly one `release`" discipline. -/
def prefixBalanced : List COp → Nat → Bool
  | [], _ => true
  | COp.acquire :: ops, held => prefixBalanced ops (held + 1)
  | COp.release :: ops, held => held != 0 && prefixBalanced ops (held - 1)

/-! ## Store lemmas -/

theorem rget_rset_self (st : Store) (k : String) (v : Int) : rget (rset st k v) k = some v := by
  induction st with
  | nil => simp [rget, rset]
  | cons p rest ih =>
    by_cases h : p.1 = k
    · simp [rget, rset, h]
    · simp only [rset]
      rw [if_neg h]
      simpa [rget, List.find?, h] using ih

theorem rget_rset_ne (st : Store) (k k' : String) (v : Int) (h : k ≠ k') :
    rget (rset st k v) k' = rget st k' := by
  induction st with
  | nil => simp [rget, rset, h]
  | cons p rest ih =>
    by_cases hp : p.1 = k
    · simp [rget, rset, hp, h, Ne.symm h]
    · simp only [rset]
      rw [if_neg hp]
      by_cases hp' : p.1 = k'
      · simp [rget, List.find?, hp']
      · simpa [rget, List.find?, hp'] using ih

theorem userKey_ne_totalKey (uid : String) : userKey uid ≠ totalKey := by
  intro h
  have h2 := congrArg String.data h
  rw [userKey, totalKey, String.data_append] at h2
  simp at h2

theorem rincr_fst (st : Store) (k : String) : (rincr st k).1 = cval st k + 1 := by
  cases h : rget st k <;> simp [rincr, h, cval]

theorem rget_rincr_self (st : Store) (k : String) :
    rget (rincr st k).2 k = kIncr (rget st k) := by
  cases h : rget st k <;> simp [rincr, h, kIncr, rget_rset_self]

theorem rget_rincr_ne (st : Store) (k k' : String) (h : k ≠ k') :
    rget (rincr st k).2 k' = rget st k' := by
  cases hh : rget st k <;> simp [rincr, hh, rget_rset_ne _ _ _ _ h]

theorem rget_rdecr_self (st : Store) (k : String) :
    rget (rdecr st k) k = some (cval st k - 1) := by
  cases h : rget st k <;> simp [rdecr, h, cval, rget_rset_self]

theorem rget_rdecr_ne (st : Store) (k k' : String) (h : k ≠ k') :
    rget (rdecr st k) k' = rget st k' := by
  cases hh : rget st k <;> simp [rdecr, hh, rget_rset_ne _ _ _ _ h]

theorem kIncr_getD (v : Option Int) : (kIncr v).getD 0 = v.getD 0 + 1 := by
  cases v <;> simp [kIncr]

/-! ## Projections of `check_rate_limit` and `releaseCounters` to single keys -/

theorem check_store_eq (uid : String) (st : Store) :
    (check_rate_limit uid st).2 = (rincr (rincr st (userKey uid)).2 totalKey).2 := by
  simp only [check_rate_limit]
  split <;> rfl

theorem rget_check_userKey (uid : String) (st : Store) :
    rget (check_rate_limit uid st).2 (userKey uid) = kIncr (rget st (userKey uid)) := by
  rw [check_store_eq]
  rw [rget_rincr_ne _ totalKey (userKey uid) (Ne.symm (userKey_ne_totalKey uid))]
  exact rget_rincr_self st (userKey uid)

theorem rget_check_totalKey (uid : String) (st : Store) :
    rget (check_rate_limit uid st).2 totalKey = kIncr (rget st totalKey) := by
  rw [check_store_eq, rget_rincr_self]
  rw [rget_rincr_ne _ _ _ (userKey_ne_totalKey uid)]

theorem rget_release_userKey (uid : String) (st : Store) :
    rget (releaseCounters st (some uid)) (userKey uid) = kRelease (rget st (userKey uid)) := by
  have total : ∀ st' : Store,
      rget (match rget st' totalKey with
            | none => st'
            | some n => if n > 0 then rdecr st' totalKey else st') (userKey uid)
        = rget st' (userKey uid) := by
    intro st'
    cases ht : rget st' totalKey with
    | none => rfl
    | some m =>
      by_cases hm : m > 0
      · simp [hm, rget_rdecr_ne _ _ _ (Ne.symm (userKey_ne_totalKey uid))]
      · simp [hm]
  simp only [releaseCounters]
  rw [total]
  cases hu : rget st (userKey uid) with
  | none => simp [kRelease, hu]
  | some n =>
    by_cases hn : n > 0
    · simp [kRelease, hn, rget_rdecr_self, cval, hu]
    · simp [kRelease, hn, hu]

theorem rget_release_totalKey (uid : String) (st : Store) :
    rget (releaseCounters st (some uid)) totalKey = kRelease (rget st totalKey) := by
  have key : ∀ st' : Store, rget st' totalKey = rget st totalKey →
      rget (match rget st' totalKey with
            | none => st'
            | some n => if n > 0 then rdecr st' totalKey else st') totalKey
        = kRelease (rget st totalKey) := by
    intro st' hst
    rw [hst]
    cases ht : rget st totalKey with
    | none => simpa [kRelease, ht] using hst
    | some m =>
      by_cases hm : m > 0
      · simp [kRelease, hm, rget_rdecr_self, cval, hst, ht]
      · simpa [kRelease, ht, hm] using hst
  simp only [releaseCounters]
  apply key
  cases hu : rget st (userKey uid) with
  | none => rfl
  | some n =>
    by_cases hn : n > 0
    · simp [hn, rget_rdecr_ne _ _ _ (userKey_ne_totalKey uid)]
    · simp [hn]

/-! ## Sequence lemmas for the counters -/

theorem rget_runOps_userKey (ops : List COp) (uid : String) (st : Store) :
    rget (runOps ops uid st) (userKey uid) = runK ops (rget st (userKey uid)) := by
  induction ops generalizing st with
  | nil => rfl
  | cons op ops ih =>
    cases op with
    | acquire => rw [runOps, runK, applyOp, ih, rget_check_userKey]
    | release => rw [runOps, runK, applyOp, ih, rget_release_userKey]

theorem rget_runOps_totalKey (ops : List COp) (uid : String) (st : Store) :
    rget (runOps ops uid st) totalKey = runK ops (rget st totalKey) := by
  induction ops generalizing st with
  | nil => rfl
  | cons op ops ih =>
    cases op with
    | acquire => rw [runOps, runK, applyOp, ih, rget_check_totalKey]
    | release => rw [runOps, runK, applyOp, ih, rget_release_totalKey]

theorem runK_nonneg (ops : List COp) (v : Option Int) (h : 0 ≤ v.getD 0) :
    0 ≤ (runK ops v).getD 0 := by
  induction ops generalizing v with
  | nil => exact h
  | cons op ops ih =>
    cases op with
    | acquire =>
      rw [runK]
      exact ih _ (by rw [kIncr_getD]; omega)
    | release =>
      rw [runK]
      apply ih
      cases v with
      | none => simpa [kRelease] using h
      | some n =>
        by_cases hn : n > 0
        · simp [kRelease, hn]; omega
        · simpa [kRelease, hn] using h

theorem runK_balanced (ops : List COp) (held : Nat) (v : Option Int)
    (hv : v.getD 0 = (held : Int)) (hp : prefixBalanced ops held = true) :
    (runK ops v).getD 0 = (held : Int) + (countAdm ops : Int) - (countRel ops : Int) := by
  induction ops generalizing held v with
  | nil => simp [runK, countAdm, countRel, hv]
  | cons op ops ih =>
    cases op with
    | acquire =>
      rw [runK]
      rw [prefixBalanced] at hp
      have hstep := ih (held + 1) (kIncr v) (by rw [kIncr_getD, hv]; push_cast [Nat.cast_add]; ring) hp
      rw [hstep]
      simp [countAdm, countRel, List.countP_cons]
      push_cast
      ring
    | release =>
      rw [runK]
      rw [prefixBalanced, Bool.and_eq_true] at hp
      obtain ⟨hne, hp⟩ := hp
      have hheld : held ≠ 0 := by simpa using hne
      cases v with
      | none => simp [Option.getD] at hv; omega
      | some n =>
        have hn : n = (held : Int) := by simpa using hv
        have hpos : n > 0 := by omega
        have hrel : kRelease (some n) = some (n - 1) := by simp [kRelease, hpos]
        rw [hrel]
        have hstep := ih (held - 1) (some (n - 1)) (by simp [hn]; omega) hp
        rw [hstep]
        simp [countAdm, countRel, List.countP_cons]
        omega

/-! ## Value lemmas for one admission round -/

theorem cval_check_userKey (uid : String) (st : Store) :
    cval (check_rate_limit uid st).2 (userKey uid) = cval st (userKey uid) + 1 := by
  unfold cval
  rw [rget_check_userKey, kIncr_getD]

theorem cval_check_totalKey (uid : String) (st : Store) :
    cval (check_rate_limit uid st).2 totalKey = cval st totalKey + 1 := by
  unfold cval
  rw [rget_check_totalKey, kIncr_getD]

theorem check_fst_eq (uid : String) (st : Store) :
    (check_rate_limit uid st).1 =
      !decide (MAX_CONCURRENT_REQUESTS < cval st totalKey + 1
        ∨ MAX_CONCURRENT_REQUESTS_FOR_ONE_USER < cval st (userKey uid) + 1) := by
  have h1 := rincr_fst st (userKey uid)
  have h2 : (rincr (rincr st (userKey uid)).2 totalKey).1 = cval st totalKey + 1 := by
    rw [rincr_fst]
    unfold cval
    rw [rget_rincr_ne _ _ _ (userKey_ne_totalKey uid)]
  simp only [check_rate_limit]
  rw [h1, h2]
  split
  case isTrue h => simp [h]
  case isFalse h => simp [h]

theorem kRelease_kIncr_getD (v : Option Int) (h : 0 ≤ v.getD 0) :
    (kRelease (kIncr v)).getD 0 = v.getD 0 := by
  cases v with
  | none => simp [kIncr, kRelease]
  | some n =>
    simp only [Option.getD] at h
    have hpos : (0 : Int) < n + 1 := by omega
    simp [kIncr, kRelease, hpos]

theorem cval_release_check_userKey (uid : String) (st : Store)
    (h : 0 ≤ cval st (userKey uid)) :
    cval (releaseCounters (check_rate_limit uid st).2 (some uid)) (userKey uid)
      = cval st (userKey uid) := by
  unfold cval at *
  rw [rget_release_userKey, rget_check_userKey]
  exact kRelease_kIncr_getD _ h

theorem cval_release_check_totalKey (uid : String) (st : Store)
    (h : 0 ≤ cval st totalKey) :
    cval (releaseCounters (check_rate_limit uid st).2 (some uid)) totalKey
      = cval st totalKey := by
  unfold cval at *
  rw [rget_release_totalKey, rget_check_totalKey]
  exact kRelease_kIncr_getD _ h

/-! ## Handler plumbing -/

theorem post_store_eq (url uid : String) (st : Store) (db : List LinkRecord)
    (now : Nat) (fault : Bool) (hu : uid ≠ "") (hl : url ≠ "") :
    (post (some url) (some uid) st db now fault).2.1 =
      releaseCounters (check_rate_limit uid st).2 (some uid) := by
  simp only [post]
  rw [if_neg hu, if_neg hl]
  split
  · rfl
  · split <;> rfl

theorem post_success_eq (url uid : String) (st : Store) (db : List LinkRecord)
    (now : Nat) (hu : uid ≠ "") (hl : url ≠ "")
    (hallow : (check_rate_limit uid st).1 = true) :
    post (some url) (some uid) st db now false =
      ((if (upsertDb db url now).2.1 = true then PostResult.createdNew (upsertDb db url now).1
         else PostResult.fetched (upsertDb db url now).1),
        releaseCounters (check_rate_limit uid st).2 (some uid),
        (upsertDb db url now).2.2) := by
  simp only [post]
  rw [if_neg hu, if_neg hl, if_neg (by simp [hallow])]
  simp

theorem post_reject_eq (url uid : String) (st : Store) (db : List LinkRecord)
    (now : Nat) (fault : Bool) (hu : uid ≠ "") (hl : url ≠ "")
    (hallow : (check_rate_limit uid st).1 = false) :
    post (some url) (some uid) st db now fault =
      (.tooMany, releaseCounters (check_rate_limit uid st).2 (some uid), db) := by
  simp only [post]
  rw [if_neg hu, if_neg hl, if_pos hallow]

theorem post_fault_eq (url uid : String) (st : Store) (db : List LinkRecord)
    (now : Nat) (hu : uid ≠ "") (hl : url ≠ "")
    (hallow : (check_rate_limit uid st).1 = true) :
    post (some url) (some uid) st db now true =
      (.serverError, releaseCounters (check_rate_limit uid st).2 (some uid), db) := by
  simp only [post]
  rw [if_neg hu, if_neg hl, if_neg (by simp [hallow])]
  simp

/-! ## Registry lemmas -/

theorem findByUrl_append (db l : List LinkRecord) (url : String)
    (h : findByUrl db url = none) : findByUrl (db ++ l) url = findByUrl l url := by
  unfold findByUrl at *
  rw [List.find?_append, h, Option.none_or]

theorem findByUrl_update (db : List LinkRecord) (url s : String) (t : Nat) :
    findByUrl (updateByUrl db url s t) url =
      (findByUrl db url).map (fun r => { r with short_url := s, created_at := t }) := by
  induction db with
  | nil => rfl
  | cons a db ih =>
    by_cases ha : a.full_url = url
    · simp [findByUrl, updateByUrl, List.find?_cons, ha]
    · simp only [updateByUrl, List.map_cons] at *
      rw [if_neg ha]
      simpa [findByUrl, List.find?_cons, ha] using ih

theorem upsert_then_find (db : List LinkRecord) (url : String) (now : Nat)
    (hfresh : ∀ r, findByUrl db url = some r → is_link_expired r.created_at now = true) :
    (upsertDb db url now).1 = generate_short_url url
    ∧ (upsertDb db url now).2.1 = true
    ∧ findByUrl (upsertDb db url now).2.2 url = some ⟨url, generate_short_url url, now⟩ := by
  cases hf : findByUrl db url with
  | none =>
    simp only [upsertDb, hf]
    refine ⟨by trivial, by trivial, ?_⟩
    rw [findByUrl_append _ _ _ hf]
    simp [findByUrl, List.find?]
  | some r =>
    have hexp := hfresh r hf
    have hurl : r.full_url = url := by simpa using List.find?_some hf
    simp only [upsertDb, hf]
    rw [if_neg (by simp [hexp])]
    refine ⟨by trivial, by trivial, ?_⟩
    rw [findByUrl_update]
    simp [hf, hurl]

theorem not_decide_eq_false (P : Prop) [Decidable P] : ((!decide P) = false) ↔ P := by
  by_cases h : P <;> simp [h]

theorem upsert_fetch (db : List LinkRecord) (url : String) (now : Nat) (r : LinkRecord)
    (hf : findByUrl db url = some r) (he : is_link_expired r.created_at now = false) :
    upsertDb db url now = (r.short_url, false, db) := by
  simp [upsertDb, hf, he]

theorem check_allowed_of_lt (uid : String) (st : Store)
    (hcapu : cval st (userKey uid) < MAX_CONCURRENT_REQUESTS_FOR_ONE_USER)
    (hcapt : cval st totalKey < MAX_CONCURRENT_REQUESTS) :
    (check_rate_limit uid st).1 = true := by
  have hnot : ¬(MAX_CONCURRENT_REQUESTS < cval st totalKey + 1
      ∨ MAX_CONCURRENT_REQUESTS_FOR_ONE_USER < cval st (userKey uid) + 1) := by
    unfold MAX_CONCURRENT_REQUESTS MAX_CONCURRENT_REQUESTS_FOR_ONE_USER at *
    omega
  rw [check_fst_eq]
  simp [hnot]

/-! ## Uniqueness of rows per URL -/

theorem singleRecord_upsert (db : List LinkRecord) (url : String) (now : Nat)
    (h : singleRecord db) : singleRecord (upsertDb db url now).2.2 := by
  cases hf : findByUrl db url with
  | some r =>
    by_cases he : is_link_expired r.created_at now = false
    · simp only [upsertDb, hf, if_pos he]
      exact h
    · simp only [upsertDb, hf, if_neg he]
      unfold singleRecord updateByUrl at *
      rw [List.pairwise_map]
      refine List.Pairwise.imp ?_ h
      intro a b hab
      have ha : ∀ x : LinkRecord,
          ((if x.full_url = url then
              { x with short_url := generate_short_url url, created_at := now }
            else x) : LinkRecord).full_url = x.full_url := by
        intro x
        by_cases hx : x.full_url = url <;> simp [hx]
      rw [ha a, ha b]
      exact hab
  | none =>
    simp only [upsertDb, hf]
    unfold singleRecord at *
    rw [List.pairwise_append]
    refine ⟨h, by simp, ?_⟩
    intro a ha b hb
    rw [List.mem_singleton] at hb
    subst hb
    have hne := List.find?_eq_none.mp hf a ha
    simpa using hne

theorem singleRecord_countP (db : List LinkRecord) (h : singleRecord db) (u : String) :
    db.countP (fun r => r.full_url = u) ≤ 1 := by
  induction db with
  | nil => simp
  | cons a l ih =>
    unfold singleRecord at h
    rw [List.pairwise_cons] at h
    rw [List.countP_cons]
    by_cases hau : a.full_url = u
    · have hzero : l.countP (fun r => r.full_url = u) = 0 := by
        rw [List.countP_eq_zero]
        intro b hb
        have := h.1 b hb
        simp only [decide_eq_true_eq]
        intro hbu
        exact this (hau.trans hbu.symm)
      simp [hzero, hau]
    · have := ih h.2
      simp [hau]
      omega

theorem singleRecord_runUpserts (ops : List (String × Nat)) (db : List LinkRecord)
    (h : singleRecord db) : singleRecord (runUpserts ops db) := by
  induction ops generalizing db with
  | nil => exact h
  | cons p ops ih =>
    obtain ⟨url, now⟩ := p
    exact ih _ (singleRecord_upsert db url now h)

/-! ## Shape of the generated code -/

theorem md5Bytes_length (msg : List Nat) : (md5Bytes msg).length = 16 := by
  have key : ∀ r : Nat × Nat × Nat × Nat,
      (wordLE r.1 ++ wordLE r.2.1 ++ wordLE r.2.2.1 ++ wordLE r.2.2.2).length = 16 := by
    intro r
    simp [wordLE]
  unfold md5Bytes
  exact key _

theorem md5HexChars_length (msg : List Nat) : (md5HexChars msg).length = 32 := by
  have key : ∀ l : List Nat, ((l.map byteHexChars).flatten).length = 2 * l.length := by
    intro l
    induction l with
    | nil => simp
    | cons b l ih => simp [byteHexChars, ih]; omega
  unfold md5HexChars
  rw [key, md5Bytes_length]

theorem isHexChar_hexChar : ∀ n, n < 16 → isHexChar (hexChar n) = true := by decide

theorem mem_md5HexChars_hex (msg : List Nat) (c : Char) (hc : c ∈ md5HexChars msg) :
    isHexChar c = true := by
  unfold md5HexChars at hc
  rw [List.mem_flatten] at hc
  obtain ⟨l, hl, hcl⟩ := hc
  rw [List.mem_map] at hl
  obtain ⟨b, _, rfl⟩ := hl
  simp only [byteHexChars, List.mem_cons, List.mem_singleton] at hcl
  rcases hcl with rfl | rfl | h
  · exact isHexChar_hexChar _ (Nat.mod_lt _ (by omega))
  · exact isHexChar_hexChar _ (Nat.mod_lt _ (by omega))
  · cases h

/-! ## The claims -/

/-- C7: `generate_short_url` is deterministic and content-addressed — it is a
closed function of the URL's encoded bytes alone (no salt, randomness or
state), so equal inputs give equal outputs across calls and instances — and
its output is always a string of exactly 6 lowercase hexadecimal characters. -/
theorem C7_deterministic_code_generation (u : String) :
    (generate_short_url u).length = 6
    ∧ (∀ c ∈ (generate_short_url u).data, isHexChar c = true)
    ∧ (∀ v : String, strBytes u = strBytes v →
        generate_short_url u = generate_short_url v) := by
  refine ⟨?_, ?_, ?_⟩
  · show ((md5HexChars (strBytes u)).take 6).length = 6
    rw [List.length_take, md5HexChars_length]
    decide
  · intro c hc
    exact mem_md5HexChars_hex _ c (List.take_subset _ _ hc)
  · intro v h
    unfold generate_short_url
    rw [h]

set_option maxRecDepth 100000 in
/-- C7 witness at a concrete URL. -/
theorem C7_witness :
    (generate_short_url "https://example.com").length = 6
    ∧ generate_short_url "https://example.com" = "c984d0" :=
  ⟨(C7_deterministic_code_generation "https://example.com").1, by decide⟩

/-- C5: resolving a code is a trichotomy for both `GetFullURL.get` (Inspect)
and `RedirectURL.get` (Redirect): `notFound` (404) exactly when no row has the
code, `gone` (410) when the first matching row is expired — the row is not
deleted, the handlers never write — and the success outcome otherwise.  In
particular an expired-but-present code yields `gone`, never `notFound`, and
redirection does not happen. -/
theorem C5_resolve_trichotomy (db : List LinkRecord) (code : String) (now : Nat) :
    (findByCode db code = none →
      getFullUrl db code now = .notFound ∧ redirectUrl db code now = .notFound)
    ∧ (∀ r, findByCode db code = some r → is_link_expired r.created_at now = true →
      getFullUrl db code now = .gone ∧ redirectUrl db code now = .gone)
    ∧ (∀ r, findByCode db code = some r → is_link_expired r.created_at now = false →
      getFullUrl db code now = .okUrl r.full_url
        ∧ redirectUrl db code now = .redirectTo r.full_url) := by
  refine ⟨fun h => ?_, fun r h he => ?_, fun r h he => ?_⟩
  · simp [getFullUrl, redirectUrl, h]
  · simp [getFullUrl, redirectUrl, h, he]
  · simp [getFullUrl, redirectUrl, h, he]

/-- C5 witness: a record written at time 0 and inspected at time 1000
(past the 600s TTL) reads as expired, not absent, on both endpoints. -/
theorem C5_witness :
    getFullUrl [⟨"https://e.com", "abc123", 0⟩] "abc123" 1000 = GetResult.gone
    ∧ redirectUrl [⟨"https://e.com", "abc123", 0⟩] "abc123" 1000 = RedirectResult.gone :=
  (C5_resolve_trichotomy [⟨"https://e.com", "abc123", 0⟩] "abc123" 1000).2.1
    ⟨"https://e.com", "abc123", 0⟩ (by decide) (by decide)

/-- C9: a request missing `full_url` or `user_id` is answered 400 before
`check_rate_limit` runs: the counter store and the table are returned
untouched. -/
theorem C9_validation_before_admission (full_url user_id : Option String) (st : Store)
    (db : List LinkRecord) (now : Nat) (fault : Bool)
    (h : user_id = none ∨ full_url = none) :
    ((post full_url user_id st db now fault).1 = .badRequestUser
      ∨ (post full_url user_id st db now fault).1 = .badRequestUrl)
    ∧ (post full_url user_id st db now fault).2.1 = st
    ∧ (post full_url user_id st db now fault).2.2 = db := by
  rcases h with h | h
  · subst h
    exact ⟨Or.inl rfl, rfl, rfl⟩
  · subst h
    cases user_id with
    | none => exact ⟨Or.inl rfl, rfl, rfl⟩
    | some uid =>
      by_cases hu : uid = ""
      · refine ⟨Or.inl ?_, ?_, ?_⟩ <;> simp [post, hu]
      · refine ⟨Or.inr ?_, ?_, ?_⟩ <;> simp [post, hu]

/-- C9 witness: a request with a user but no URL is a 400 with nothing
changed. -/
theorem C9_witness :
    (post none (some "U") [("total_requests", (3 : Int))] [] 7 false).1
        = PostResult.badRequestUrl
    ∧ (post none (some "U") [("total_requests", (3 : Int))] [] 7 false).2.1
        = [("total_requests", (3 : Int))] := by
  have h := C9_validation_before_admission none (some "U")
    [("total_requests", (3 : Int))] [] 7 false (Or.inr rfl)
  refine ⟨?_, h.2.1⟩
  rcases h.1 with h1 | h1
  · cases h1
  · exact h1

/-- C10: the handler's `if not user_id` / `if not full_url` checks treat the
empty string exactly like an absent field, and the `user_id` check runs
first, so when both fields are missing or empty the reported error is the
`user_id` one. -/
theorem C10_empty_field_is_missing (full_url user_id : Option String) (st : Store)
    (db : List LinkRecord) (now : Nat) (fault : Bool) :
    ((user_id = none ∨ user_id = some "") →
      post full_url user_id st db now fault = (.badRequestUser, st, db))
    ∧ (∀ uid, user_id = some uid → uid ≠ "" → (full_url = none ∨ full_url = some "") →
      post full_url user_id st db now fault = (.badRequestUrl, st, db)) := by
  constructor
  · rintro (rfl | rfl)
    · rfl
    · simp [post]
  · rintro uid rfl hu (rfl | rfl)
    · simp only [post, if_neg hu]
    · simp only [post, if_neg hu]
      rfl

/-- C10 witness: with both fields empty strings the `user_id` error wins. -/
theorem C10_witness :
    post (some "") (some "") [] [] 0 false = (PostResult.badRequestUser, [], []) :=
  (C10_empty_field_is_missing (some "") (some "") [] [] 0 false).1 (Or.inr rfl)

/-- C1: upsert semantics of the `/generate` handler, for a valid, admitted,
fault-free request.  A fresh row for the URL is returned as `fetched` (200)
with the stored code and no table write; an absent URL inserts a new row and
an expired row is overwritten in place, both returning `createdNew` (201)
with `generate_short_url full_url`.  The counter store always ends released. -/
theorem C1_create_or_fetch (url uid : String) (st : Store) (db : List LinkRecord) (now : Nat)
    (hu : uid ≠ "") (hl : url ≠ "")
    (hallow : (check_rate_limit uid st).1 = true) :
    (∀ r, findByUrl db url = some r → is_link_expired r.created_at now = false →
      post (some url) (some uid) st db now false =
        (.fetched r.short_url, releaseCounters (check_rate_limit uid st).2 (some uid), db))
    ∧ (findByUrl db url = none →
      post (some url) (some uid) st db now false =
        (.createdNew (generate_short_url url),
          releaseCounters (check_rate_limit uid st).2 (some uid),
          db ++ [⟨url, generate_short_url url, now⟩]))
    ∧ (∀ r, findByUrl db url = some r → is_link_expired r.created_at now = true →
      post (some url) (some uid) st db now false =
        (.createdNew (generate_short_url url),
          releaseCounters (check_rate_limit uid st).2 (some uid),
          updateByUrl db url (generate_short_url url) now)) := by
  have hpost := post_success_eq url uid st db now hu hl hallow
  refine ⟨fun r hf he => ?_, fun hf => ?_, fun r hf he => ?_⟩
  · rw [hpost]
    simp [upsertDb, hf, he]
  · rw [hpost]
    simp [upsertDb, hf]
  · rw [hpost]
    simp [upsertDb, hf, he]

/-- C1 witness: inserting a URL into an empty table from idle counters. -/
theorem C1_witness :
    post (some "https://example.com") (some "U") [] [] 5 false =
      (PostResult.createdNew (generate_short_url "https://example.com"),
        releaseCounters (check_rate_limit "U" []).2 (some "U"),
        [⟨"https://example.com", generate_short_url "https://example.com", 5⟩]) :=
  (C1_create_or_fetch "https://example.com" "U" [] [] 5 (by decide) (by decide)
    (by decide)).2.1 rfl

/-- C4: once `check_rate_limit` has incremented the counters, the handler's
`finally` block releases them exactly once before returning, whatever the
path — rejection (429), an internal fault (500) or success — so the final
store is exactly the post-admission store released once, and both counter
values end where they started. -/
theorem C4_release_on_every_path (url uid : String) (st : Store) (db : List LinkRecord)
    (now : Nat) (fault : Bool) (hu : uid ≠ "") (hl : url ≠ "")
    (h0u : 0 ≤ cval st (userKey uid)) (h0t : 0 ≤ cval st totalKey) :
    (post (some url) (some uid) st db now fault).2.1 =
      releaseCounters (check_rate_limit uid st).2 (some uid)
    ∧ cval (post (some url) (some uid) st db now fault).2.1 (userKey uid)
        = cval st (userKey uid)
    ∧ cval (post (some url) (some uid) st db now fault).2.1 totalKey
        = cval st totalKey := by
  have hst := post_store_eq url uid st db now fault hu hl
  exact ⟨hst, by rw [hst]; exact cval_release_check_userKey uid st h0u,
    by rw [hst]; exact cval_release_check_totalKey uid st h0t⟩

/-- C4 witness: a faulting request from idle counters leaves them at zero. -/
theorem C4_witness :
    cval (post (some "https://e.com") (some "U") [] [] 0 true).2.1 (userKey "U") = 0
    ∧ cval (post (some "https://e.com") (some "U") [] [] 0 true).2.1 totalKey = 0 :=
  ⟨(C4_release_on_every_path "https://e.com" "U" [] [] 0 true (by decide) (by decide)
      (by decide) (by decide)).2.1,
    (C4_release_on_every_path "https://e.com" "U" [] [] 0 true (by decide) (by decide)
      (by decide) (by decide)).2.2⟩

/-- C2: `check_rate_limit` increments both counters unconditionally, and
rejects exactly when the incremented global count exceeds 100 or the
incremented per-user count exceeds 100.  Scenario, from empty counters: 100
un-released admissions for user `U` all succeed; a 101st request for `U` is
rejected with 429 (its own increments undone by its `finally` release, which
runs on the rejection path too); after one further release — freeing one of
the 100 held slots — the next admission for `U` succeeds again. -/
theorem C2_admission_threshold :
    (∀ (uid : String) (st : Store),
      cval (check_rate_limit uid st).2 (userKey uid) = cval st (userKey uid) + 1
        ∧ cval (check_rate_limit uid st).2 totalKey = cval st totalKey + 1)
    ∧ (∀ (uid : String) (st : Store),
      ((check_rate_limit uid st).1 = false ↔
        MAX_CONCURRENT_REQUESTS < cval (check_rate_limit uid st).2 totalKey
          ∨ MAX_CONCURRENT_REQUESTS_FOR_ONE_USER
              < cval (check_rate_limit uid st).2 (userKey uid)))
    ∧ allAcquiredN 100 "U" [] = true
    ∧ (post (some "https://e.com") (some "U") (acquireN 100 "U" []) [] 0 false).1
        = PostResult.tooMany
    ∧ (check_rate_limit "U" (releaseCounters
        (post (some "https://e.com") (some "U") (acquireN 100 "U" []) [] 0 false).2.1
        (some "U"))).1 = true := by
  refine ⟨fun uid st => ⟨cval_check_userKey uid st, cval_check_totalKey uid st⟩,
    fun uid st => ?_, by decide, by decide, by decide⟩
  rw [check_fst_eq, cval_check_userKey, cval_check_totalKey]
  exact not_decide_eq_false _

/-- C3: for one user's two counter keys, any event sequence in which every
release is preceded by a matching admit and admits and releases balance ends
with both counters at 0; counters never go negative under any sequence at
all (the `finally` block clamps at zero); and a release on a missing (or
TTL-expired, hence missing) key is a no-op. -/
theorem C3_counter_conservation (uid : String) (st : Store) (ops : List COp)
    (h0u : cval st (userKey uid) = 0) (h0t : cval st totalKey = 0)
    (hp : prefixBalanced ops 0 = true)
    (hbal : countRel ops = countAdm ops) :
    cval (runOps ops uid st) (userKey uid) = 0
    ∧ cval (runOps ops uid st) totalKey = 0
    ∧ (∀ ops' : List COp, 0 ≤ cval (runOps ops' uid st) (userKey uid))
    ∧ (∀ ops' : List COp, 0 ≤ cval (runOps ops' uid st) totalKey)
    ∧ (rget st (userKey uid) = none →
        rget (releaseCounters st (some uid)) (userKey uid) = none)
    ∧ (rget st totalKey = none →
        rget (releaseCounters st (some uid)) totalKey = none) := by
  refine ⟨?_, ?_, ?_, ?_, ?_, ?_⟩
  · show (rget (runOps ops uid st) (userKey uid)).getD 0 = 0
    rw [rget_runOps_userKey, runK_balanced ops 0 _ (by simpa [cval] using h0u) hp, hbal]
    simp
  · show (rget (runOps ops uid st) totalKey).getD 0 = 0
    rw [rget_runOps_totalKey, runK_balanced ops 0 _ (by simpa [cval] using h0t) hp, hbal]
    simp
  · intro ops'
    show 0 ≤ (rget (runOps ops' uid st) (userKey uid)).getD 0
    rw [rget_runOps_userKey]
    exact runK_nonneg _ _ (by unfold cval at h0u; omega)
  · intro ops'
    show 0 ≤ (rget (runOps ops' uid st) totalKey).getD 0
    rw [rget_runOps_totalKey]
    exact runK_nonneg _ _ (by unfold cval at h0t; omega)
  · intro hnone
    rw [rget_release_userKey, hnone]
    rfl
  · intro hnone
    rw [rget_release_totalKey, hnone]
    rfl

/-- C3 witness: two admit/release pairs for one user leave both counters at
zero. -/
theorem C3_witness :
    cval (runOps [COp.acquire, COp.acquire, COp.release, COp.release] "U" []) (userKey "U") = 0
    ∧ cval (runOps [COp.acquire, COp.acquire, COp.release, COp.release] "U" []) totalKey = 0 :=
  ⟨(C3_counter_conservation "U" [] [COp.acquire, COp.acquire, COp.release, COp.release]
      (by decide) (by decide) (by decide) (by decide)).1,
    (C3_counter_conservation "U" [] [COp.acquire, COp.acquire, COp.release, COp.release]
      (by decide) (by decide) (by decide) (by decide)).2.1⟩

/-- C6: calling the `/generate` handler twice in immediate succession (the
second call within the 600s TTL of the first, nothing interleaved) for a URL
with no fresh row yields the same short code twice: first `createdNew` (201),
then `fetched` (200). -/
theorem C6_idempotent_within_ttl (url uid : String) (st : Store) (db : List LinkRecord)
    (now now2 : Nat) (hu : uid ≠ "") (hl : url ≠ "")
    (h0u : 0 ≤ cval st (userKey uid)) (h0t : 0 ≤ cval st totalKey)
    (hcapu : cval st (userKey uid) < MAX_CONCURRENT_REQUESTS_FOR_ONE_USER)
    (hcapt : cval st totalKey < MAX_CONCURRENT_REQUESTS)
    (hfresh : ∀ r, findByUrl db url = some r → is_link_expired r.created_at now = true)
    (httl : now2 ≤ now + LINK_TTL) :
    ∃ st1 db1 st2 db2,
      post (some url) (some uid) st db now false =
        (.createdNew (generate_short_url url), st1, db1)
      ∧ post (some url) (some uid) st1 db1 now2 false =
        (.fetched (generate_short_url url), st2, db2) := by
  have hallow1 : (check_rate_limit uid st).1 = true := check_allowed_of_lt uid st hcapu hcapt
  have hpost1 := post_success_eq url uid st db now hu hl hallow1
  have hue := upsert_then_find db url now hfresh
  have hst1u : cval (releaseCounters (check_rate_limit uid st).2 (some uid)) (userKey uid)
      = cval st (userKey uid) := cval_release_check_userKey uid st h0u
  have hst1t : cval (releaseCounters (check_rate_limit uid st).2 (some uid)) totalKey
      = cval st totalKey := cval_release_check_totalKey uid st h0t
  have hallow2 :
      (check_rate_limit uid (releaseCounters (check_rate_limit uid st).2 (some uid))).1
        = true :=
    check_allowed_of_lt uid _ (by rw [hst1u]; exact hcapu) (by rw [hst1t]; exact hcapt)
  have hpost2 := post_success_eq url uid
    (releaseCounters (check_rate_limit uid st).2 (some uid))
    (upsertDb db url now).2.2 now2 hu hl hallow2
  have hnotexp : is_link_expired now now2 = false := by
    unfold is_link_expired LINK_TTL at *
    simp
    omega
  have hup2 := upsert_fetch (upsertDb db url now).2.2 url now2
    ⟨url, generate_short_url url, now⟩ hue.2.2 hnotexp
  refine ⟨releaseCounters (check_rate_limit uid st).2 (some uid),
    (upsertDb db url now).2.2,
    releaseCounters
      (check_rate_limit uid (releaseCounters (check_rate_limit uid st).2 (some uid))).2
      (some uid),
    (upsertDb db url now).2.2, ?_, ?_⟩
  · rw [hpost1, hue.2.1, hue.1]
    simp
  · rw [hpost2, hup2]
    simp

/-- C6 witness: two immediate calls for the same URL on an empty system. -/
theorem C6_witness :
    ∃ st1 db1 st2 db2,
      post (some "https://example.com") (some "U") [] [] 5 false =
        (PostResult.createdNew (generate_short_url "https://example.com"), st1, db1)
      ∧ post (some "https://example.com") (some "U") st1 db1 20 false =
        (PostResult.fetched (generate_short_url "https://example.com"), st2, db2) :=
  C6_idempotent_within_ttl "https://example.com" "U" [] [] 5 20
    (by decide) (by decide) (by decide) (by decide) (by decide) (by decide)
    (by intro r h; simp [findByUrl, List.find?] at h) (by decide)

/-- C8: the table never holds two rows for the same `full_url`: a single
upsert preserves row-per-URL uniqueness (`INSERT` fires only when no row
matched; `UPDATE` rewrites the matching row in place), so any sequence of
upserts from the empty table keeps at most one row per URL. -/
theorem C8_single_record_per_url (db : List LinkRecord) (url : String) (now : Nat)
    (h : singleRecord db) :
    singleRecord (upsertDb db url now).2.2
    ∧ (∀ u, (upsertDb db url now).2.2.countP (fun r => r.full_url = u) ≤ 1)
    ∧ (∀ ops : List (String × Nat), singleRecord (runUpserts ops [])) :=
  ⟨singleRecord_upsert db url now h,
    fun u => singleRecord_countP _ (singleRecord_upsert db url now h) u,
    fun ops => singleRecord_runUpserts ops [] (by simp [singleRecord])⟩

/-- C8 witness: upserting an already-present fresh URL keeps the table
duplicate-free. -/
theorem C8_witness :
    singleRecord (upsertDb [⟨"https://a.com", "aaaaaa", 0⟩] "https://a.com" 5).2.2 :=
  (C8_single_record_per_url [⟨"https://a.com", "aaaaaa", 0⟩] "https://a.com" 5
    (by simp [singleRecord])).1
